import Mathlib

/-!
Verification of the agentishare message-delivery core: a shallow embedding of
the hub-server store adapters (`MemoryStore`, `VolumeStore`), the delivery
route (`/agent/send`, `/agent/stream`) and the Nostr relay client, with proofs
of the spec's testable properties.
-/

set_option autoImplicit false

namespace AgentHub

/-- `AgentMessage` from hub-server `src/types.ts`. The `type` field is one of a
closed string set; we keep it as a string, as the wire format does. -/
structure AgentMessage where
  id : String
  «from» : String
  «to» : String
  type : String
  content : String
  timestamp : Nat
  deriving Repr, DecidableEq

/-- `TeamRecord` from hub-server `src/store/types.ts`. -/
structure TeamRecord where
  id : String
  apiKeyHash : String
  createdAt : Nat
  deriving Repr, DecidableEq

/-- `AgentRecord` from hub-server `src/store/types.ts`. -/
structure AgentRecord where
  name : String
  teamId : String
  sessionId : String
  connectedAt : Nat
  messageBuffer : List AgentMessage
  deriving Repr, DecidableEq

/-! ### Association-list model of a JS `Map` / plain object

JS `Map.set` keeps insertion order and replaces in place on an existing key;
`Map.get` returns the value at the key. We model both `Map` and plain-object
records with an association list. -/

section MapOps

variable {α β : Type} [DecidableEq α]

/-- `Map.get` / `obj[key]`: first (and, for reachable states, only) binding. -/
def mapGet : List (α × β) → α → Option β
  | [], _ => none
  | (k', v) :: rest, k => if k' = k then some v else mapGet rest k

/-- `Map.set` / `obj[key] = v`: replace in place if present, append if not. -/
def mapSet : List (α × β) → α → β → List (α × β)
  | [], k, v => [(k, v)]
  | (k', v') :: rest, k, v =>
      if k' = k then (k, v) :: rest else (k', v') :: mapSet rest k v

/-- `Map.delete` / `delete obj[key]`. -/
def mapDel : List (α × β) → α → List (α × β)
  | [], _ => []
  | (k', v') :: rest, k => if k' = k then rest else (k', v') :: mapDel rest k

theorem mapGet_mapSet_self (l : List (α × β)) (k : α) (v : β) :
    mapGet (mapSet l k v) k = some v := by
  induction l with
  | nil => simp [mapGet, mapSet]
  | cons p rest ih =>
    obtain ⟨k', v'⟩ := p
    by_cases h : k' = k <;> simp [mapGet, mapSet, h, ih]

theorem mapGet_mapSet_other (l : List (α × β)) (k k' : α) (v : β) (hne : k ≠ k') :
    mapGet (mapSet l k v) k' = mapGet l k' := by
  induction l with
  | nil => simp [mapGet, mapSet, hne]
  | cons p rest ih =>
    obtain ⟨k₀, v₀⟩ := p
    by_cases h : k₀ = k
    · subst h
      simp [mapGet, mapSet, hne]
    · simp only [mapSet, if_neg h]
      by_cases h' : k₀ = k' <;> simp [mapGet, h', ih]

theorem mapGet_of_mem {l : List (α × β)} {p : α × β}
    (hnd : (l.map Prod.fst).Nodup) (hp : p ∈ l) : mapGet l p.1 = some p.2 := by
  induction l with
  | nil => cases hp
  | cons q rest ih =>
    simp only [List.map_cons, List.nodup_cons] at hnd
    rcases List.mem_cons.mp hp with h | h
    · subst h
      obtain ⟨k, v⟩ := p
      simp [mapGet]
    · have hkey : q.1 ≠ p.1 := by
        intro he
        exact hnd.1 (he ▸ List.mem_map_of_mem Prod.fst h)
      obtain ⟨k, v⟩ := q
      simp only [mapGet, if_neg hkey]
      exact ih hnd.2 h

end MapOps

/-! ### MemoryStore (`src/packages/hub-server/src/store/memory.ts`)

Private maps `teams : Map<string, TeamRecord>` and
`agents : Map<string, AgentRecord>` keyed by `` `${teamId}:${agentName}` ``.
We key the agents map with the pair `(teamId, agentName)`; the source builds
the same key by string concatenation. -/

structure MemoryStore where
  teams : List (String × TeamRecord)
  agents : List ((String × String) × AgentRecord)
  deriving Repr, DecidableEq

namespace MemoryStore

/-- Empty store: `new MemoryStore()`. -/
def empty : MemoryStore := ⟨[], []⟩

/-- `MemoryStore.createTeam`. -/
def createTeam (s : MemoryStore) (team : TeamRecord) : MemoryStore :=
  { s with teams := mapSet s.teams team.id team }

/-- `MemoryStore.getTeam`. -/
def getTeam (s : MemoryStore) (teamId : String) : Option TeamRecord :=
  mapGet s.teams teamId

/-- `MemoryStore.saveAgent`. -/
def saveAgent (s : MemoryStore) (agent : AgentRecord) : MemoryStore :=
  { s with agents := mapSet s.agents (agent.teamId, agent.name) agent }

/-- `MemoryStore.getAgent`. -/
def getAgent (s : MemoryStore) (teamId agentName : String) : Option AgentRecord :=
  mapGet s.agents (teamId, agentName)

/-- `MemoryStore.listAgents`: all map values whose `teamId` matches. -/
def listAgents (s : MemoryStore) (teamId : String) : List AgentRecord :=
  (s.agents.map Prod.snd).filter (fun a => a.teamId = teamId)

/-- `MemoryStore.removeAgent`. -/
def removeAgent (s : MemoryStore) (teamId agentName : String) : MemoryStore :=
  { s with agents := mapDel s.agents (teamId, agentName) }

/-- The buffer update performed by `pushMessage`: `push` to the tail, then
`shift` from the head once if the length exceeds the cap. -/
def pushBuf (maxBuffer : Nat) (buf : List AgentMessage) (msg : AgentMessage) :
    List AgentMessage :=
  if maxBuffer < (buf ++ [msg]).length then (buf ++ [msg]).tail else buf ++ [msg]

/-- `MemoryStore.pushMessage`: no-op when the agent is absent; otherwise append
at the tail and evict the head when over the cap. -/
def pushMessage (s : MemoryStore) (teamId agentName : String) (msg : AgentMessage)
    (maxBuffer : Nat) : MemoryStore :=
  match mapGet s.agents (teamId, agentName) with
  | none => s
  | some a =>
      { s with
        agents := mapSet s.agents (teamId, agentName)
          { a with messageBuffer := pushBuf maxBuffer a.messageBuffer msg } }

/-- `MemoryStore.flushMessages`: return the full buffer and clear it. -/
def flushMessages (s : MemoryStore) (teamId agentName : String) :
    List AgentMessage × MemoryStore :=
  match mapGet s.agents (teamId, agentName) with
  | none => ([], s)
  | some a =>
      (a.messageBuffer,
        { s with agents := mapSet s.agents (teamId, agentName) { a with messageBuffer := [] } })

end MemoryStore

/-! ### VolumeStore (`src/packages/hub-server/src/store/volume.ts`)

One JSON document `{teams, agents, messages}` on disk; agent metadata and the
message buffer are stored under the string key `` `${teamId}:${agentName}` ``.
Every operation reloads the document and writes it back atomically, so we
model the store as the on-disk `FileState` value: an operation that does not
call `save` leaves the modelled state unchanged. -/

/-- `AgentMeta = Omit<AgentRecord, 'messageBuffer'>` in `volume.ts`. -/
structure AgentMeta where
  name : String
  teamId : String
  sessionId : String
  connectedAt : Nat
  deriving Repr, DecidableEq

/-- `FileState` in `volume.ts`. -/
structure FileState where
  teams : List (String × TeamRecord)
  agents : List (String × AgentMeta)
  messages : List (String × List AgentMessage)
  deriving Repr, DecidableEq

namespace VolumeStore

/-- `EMPTY` in `volume.ts`. -/
def EMPTY : FileState := ⟨[], [], []⟩

/-- `agentKey` in `volume.ts`. -/
def agentKey (teamId agentName : String) : String := teamId ++ ":" ++ agentName

/-- The projection `const { messageBuffer, ...meta } = agent`. -/
def metaOf (a : AgentRecord) : AgentMeta :=
  ⟨a.name, a.teamId, a.sessionId, a.connectedAt⟩

/-- Reassembling `{ ...meta, messageBuffer }` into an `AgentRecord`. -/
def recOf (m : AgentMeta) (buf : List AgentMessage) : AgentRecord :=
  ⟨m.name, m.teamId, m.sessionId, m.connectedAt, buf⟩

/-- `VolumeStore.saveAgent`: store metadata and always replace the buffer with
exactly the provided value. -/
def saveAgent (st : FileState) (a : AgentRecord) : FileState :=
  let key := agentKey a.teamId a.name
  { st with
    agents := mapSet st.agents key (metaOf a)
    messages := mapSet st.messages key a.messageBuffer }

/-- `VolumeStore.getAgent`. -/
def getAgent (st : FileState) (teamId agentName : String) : Option AgentRecord :=
  let key := agentKey teamId agentName
  match mapGet st.agents key with
  | none => none
  | some meta => some (recOf meta ((mapGet st.messages key).getD []))

/-- `VolumeStore.listAgents`: entries whose metadata carries this `teamId`,
each reassembled with its buffer. -/
def listAgents (st : FileState) (teamId : String) : List AgentRecord :=
  (st.agents.filter (fun p => p.2.teamId = teamId)).map
    (fun p => recOf p.2 ((mapGet st.messages p.1).getD []))

/-- `VolumeStore.removeAgent`. -/
def removeAgent (st : FileState) (teamId agentName : String) : FileState :=
  let key := agentKey teamId agentName
  { st with agents := mapDel st.agents key, messages := mapDel st.messages key }

/-- `VolumeStore.pushMessage`: no-op for an unknown agent; otherwise append and
evict the head once when over the cap. -/
def pushMessage (st : FileState) (teamId agentName : String) (msg : AgentMessage)
    (maxBuffer : Nat) : FileState :=
  let key := agentKey teamId agentName
  match mapGet st.agents key with
  | none => st
  | some _ =>
      let buf := (mapGet st.messages key).getD []
      { st with messages := mapSet st.messages key (MemoryStore.pushBuf maxBuffer buf msg) }

/-- `VolumeStore.flushMessages`: read the buffer, clear it, and save only when
something was returned (an unsaved in-memory clear of an already-empty buffer
is discarded, since every operation reloads from disk). -/
def flushMessages (st : FileState) (teamId agentName : String) :
    List AgentMessage × FileState :=
  let key := agentKey teamId agentName
  let msgs := (mapGet st.messages key).getD []
  (msgs, if 0 < msgs.length then { st with messages := mapSet st.messages key [] } else st)

end VolumeStore

/-! ### Delivery route (`src/packages/hub-server/src/routes/agent.ts`)

`POST /agent/send` and the store registration performed by `GET /agent/stream`,
over the active store (`MemoryStore`, per `store/index.ts`). Live SSE pushes
(`connections`) do not touch any message buffer, so buffer claims are settled
on the store state. -/

/-- `MAX_BUFFER` as configured in `routes/agent.ts` (default 100). -/
def MAX_BUFFER : Nat := 100

/-- The `{ ok, messageId, deliveredTo }` response of `POST /agent/send`. -/
structure SendResponse where
  ok : Bool
  messageId : String
  deliveredTo : Nat
  deriving Repr, DecidableEq

/-- Recipient resolution in `POST /agent/send`: on `broadcast`, every team
agent except the sender; otherwise the named agent, or nobody. -/
def sendTargets (s : MemoryStore) (teamId agentName toName : String) : List AgentRecord :=
  if toName = "broadcast" then
    (s.listAgents teamId).filter (fun a => a.name ≠ agentName)
  else
    (s.getAgent teamId toName).toList

/-- `POST /agent/send` against the store: build the message, resolve targets,
push to each target's buffer with cap `MAX_BUFFER`, and answer
`{ ok: true, messageId, deliveredTo: targets.length }`. -/
def sendRoute (s : MemoryStore) (teamId agentName : String) (msg : AgentMessage) :
    MemoryStore × SendResponse :=
  ((sendTargets s teamId agentName msg.«to»).foldl
      (fun st t => st.pushMessage teamId t.name msg MAX_BUFFER) s,
    { ok := true, messageId := msg.id,
      deliveredTo := (sendTargets s teamId agentName msg.«to»).length })

/-- The store registration on `GET /agent/stream`: read the existing record and
save a fresh one that carries the existing buffer (or `[]` when absent). -/
def streamRegister (s : MemoryStore) (teamId agentName sessionId : String) (now : Nat) :
    MemoryStore :=
  let existing := s.getAgent teamId agentName
  s.saveAgent
    { name := agentName, teamId := teamId, sessionId := sessionId, connectedAt := now,
      messageBuffer := (existing.map AgentRecord.messageBuffer).getD [] }

/-! ### Nostr relay client (`src/packages/mcp-client/src/nostr-client.ts`)

Event kinds, the subscription filter issued by `subscribe()`, the local event
handler `handleEvent`, the publish-acknowledgement tracking of `publish` /
`handleOk`, and the constant-`deliveredTo` result of `send`. -/

/-- `AGENT_MSG_KIND` in `nostr-client.ts`. -/
def AGENT_MSG_KIND : Nat := 1337

/-- `PRESENCE_KIND` in `nostr-client.ts`. -/
def PRESENCE_KIND : Nat := 1338

/-- `AgentInfo` entries of the client's `knownAgents` map. -/
structure AgentInfo where
  name : String
  connectedAt : Nat
  pendingMessages : Nat
  deriving Repr, DecidableEq

/-- `NostrEvent` in `nostr-client.ts`. -/
structure NostrEvent where
  id : String
  pubkey : String
  created_at : Nat
  kind : Nat
  tags : List (List String)
  content : String
  sig : String
  deriving Repr, DecidableEq

/-- The client-local delivery state: `messageBuffer` and `knownAgents`. -/
structure ClientState where
  messageBuffer : List AgentMessage
  knownAgents : List (String × AgentInfo)
  deriving Repr, DecidableEq

/-- `event.tags.find(t => t[0] === key)?.[1]`. -/
def tagValue (e : NostrEvent) (key : String) : Option String :=
  (e.tags.find? (fun t => t.head? == some key)).bind (fun t => t.get? 1)

/-- `NostrClient.handleEvent`: presence events update `knownAgents`; message
events are appended to `messageBuffer` only when addressed to this agent's own
name or to `broadcast`. Empty tag values are falsy in the source's guards. -/
def handleEvent (myName : String) (st : ClientState) (e : NostrEvent) : ClientState :=
  if e.kind = PRESENCE_KIND then
    match tagValue e "agent" with
    | some name =>
        if name = "" then st
        else { st with knownAgents := mapSet st.knownAgents name ⟨name, e.created_at * 1000, 0⟩ }
    | none => st
  else if e.kind = AGENT_MSG_KIND then
    match tagValue e "agent-from", tagValue e "agent-to", tagValue e "msg-type" with
    | some fromName, some toName, some msgType =>
        if fromName = "" ∨ toName = "" ∨ msgType = "" then st
        else
          let st1 :=
            { st with knownAgents := mapSet st.knownAgents fromName ⟨fromName, e.created_at * 1000, 0⟩ }
          if toName ≠ myName ∧ toName ≠ "broadcast" then st1
          else
            { st1 with
              messageBuffer := st1.messageBuffer ++
                [⟨e.id, fromName, toName, msgType, e.content, e.created_at * 1000⟩] }
    | _, _, _ => st
  else st

/-- The relay-side filter installed by `NostrClient.subscribe`:
`{ kinds: [AGENT_MSG_KIND, PRESENCE_KIND], '#t': [teamId], since }` — the event
kind must be one of the two custom kinds, some `t` tag must equal the team tag,
and the event must not predate `since`. -/
def filterMatches (teamId : String) (since : Nat) (e : NostrEvent) : Bool :=
  (e.kind == AGENT_MSG_KIND || e.kind == PRESENCE_KIND)
    && e.tags.any (fun t => t.head? == some "t" && t.get? 1 == some teamId)
    && decide (since ≤ e.created_at)

/-- One delivery step of the subscribed connection: the relay forwards an event
only when it matches the subscription's filter, and the client then runs
`handleEvent` on it. -/
def deliverEvent (teamId : String) (since : Nat) (myName : String)
    (st : ClientState) (e : NostrEvent) : ClientState :=
  if filterMatches teamId since e then handleEvent myName st e else st

/-- The signed message event constructed by `NostrClient.send`. -/
def mkMessageEvent (teamId agentName toName msgType content : String)
    (id pubkey sig : String) (created_at : Nat) : NostrEvent :=
  { id := id, pubkey := pubkey, created_at := created_at, kind := AGENT_MSG_KIND,
    tags := [["t", teamId], ["agent-from", agentName], ["agent-to", toName],
             ["msg-type", msgType]],
    content := content, sig := sig }

/-- The `{ ok, messageId, deliveredTo }` result of a transport `send`. -/
structure SendResult where
  ok : Bool
  messageId : String
  deliveredTo : Nat
  deriving Repr, DecidableEq

/-- `NostrClient.send` after a successful publish: the constructed event and
the result `{ ok: true, messageId: event.id, deliveredTo: 1 }`. -/
def nostrSend (teamId agentName toName msgType content : String)
    (id pubkey sig : String) (created_at : Nat) : NostrEvent × SendResult :=
  let event := mkMessageEvent teamId agentName toName msgType content id pubkey sig created_at
  (event, { ok := true, messageId := event.id, deliveredTo := 1 })

/-- Outcome of a pending publish promise. -/
inductive PublishOutcome where
  | resolved
  | rejected (reason : String)
  deriving Repr, DecidableEq

/-- `NostrClient.handleOk` acting on the set of pending publish ids: an `OK`
frame for a pending event settles it — resolved when `accepted`, otherwise
rejected with the relay's stated reason. An `OK` for an unknown id is ignored. -/
def handleOk (pending : List String) (eventId : String) (accepted : Bool)
    (reason : String) : List String × Option PublishOutcome :=
  if eventId ∈ pending then
    (pending.erase eventId,
      some (if accepted then PublishOutcome.resolved
            else PublishOutcome.rejected ("Relay rejected event: " ++ reason)))
  else (pending, none)

/-- The 5-second timeout armed by `NostrClient.publish`: when it fires and the
event is still pending, the publish resolves successfully. -/
def publishTimeout (pending : List String) (eventId : String) :
    List String × Option PublishOutcome :=
  if eventId ∈ pending then (pending.erase eventId, some PublishOutcome.resolved)
  else (pending, none)

/-- `NostrClient.flushMessages`: drain the local buffer. -/
def flushClient (st : ClientState) : List AgentMessage × ClientState :=
  (st.messageBuffer, { st with messageBuffer := [] })

/-! ### Specification-side vocabulary -/

/-- The last `n` elements of a list, in order (all of them when the list is
shorter): the spec's "the last `N` pushes in arrival order". -/
def lastN {α : Type} (n : Nat) (l : List α) : List α := l.drop (l.length - n)

/-- Well-formedness of a `MemoryStore` agents map, maintained by the source's
use of `` `${teamId}:${agentName}` `` keys: keys are distinct and each record
is filed under its own `(teamId, name)`. -/
def MemoryStore.WF (s : MemoryStore) : Prop :=
  (s.agents.map Prod.fst).Nodup ∧ ∀ p ∈ s.agents, p.1 = (p.2.teamId, p.2.name)

/-! ### Concrete sample data for evaluating the definitions -/

/-- A two-agent team in a `MemoryStore`. -/
def sampleStore : MemoryStore :=
  ⟨[], [(("t1", "alice"), ⟨"alice", "t1", "s1", 0, []⟩),
        (("t1", "bob"), ⟨"bob", "t1", "s2", 0, []⟩)]⟩

/-- A broadcast message from `alice`. -/
def sampleBroadcast : AgentMessage := ⟨"mid", "alice", "broadcast", "decision", "hi", 5⟩

/-- Three messages addressed to `bob`. -/
def sampleMsgs : List AgentMessage :=
  [⟨"m1", "alice", "bob", "decision", "one", 1⟩,
   ⟨"m2", "alice", "bob", "decision", "two", 2⟩,
   ⟨"m3", "alice", "bob", "decision", "three", 3⟩]

/-- A direct message from `alice` to a name nobody holds. -/
def sampleToGhost : AgentMessage := ⟨"mid2", "alice", "ghost", "todo", "x", 6⟩

/-- An agent record holding one buffered message. -/
def sampleBufRec : AgentRecord :=
  ⟨"bob", "t1", "s2", 0, [⟨"m0", "alice", "bob", "todo", "seed", 0⟩]⟩

/-- A store in which `bob` already has a buffered message. -/
def sampleStoreBuf : MemoryStore := ⟨[], [(("t1", "bob"), sampleBufRec)]⟩

/-- A `VolumeStore` file state holding one agent of team `t2`. -/
def sampleVolume : FileState := ⟨[], [("t2:carol", ⟨"carol", "t2", "s3", 1⟩)], []⟩

/-! ## Helper lemmas -/

theorem MemoryStore.getAgent_saveAgent_self (s : MemoryStore) (a : AgentRecord) :
    (s.saveAgent a).getAgent a.teamId a.name = some a := by
  simp [MemoryStore.saveAgent, MemoryStore.getAgent, mapGet_mapSet_self]

theorem lastN_nil {α : Type} (n : Nat) : lastN n ([] : List α) = [] := by
  simp [lastN]

theorem length_lastN_le {α : Type} (n : Nat) (l : List α) : (lastN n l).length ≤ n := by
  simp [lastN]
  omega

theorem lastN_of_length_le {α : Type} {n : Nat} {l : List α} (h : l.length ≤ n) :
    lastN n l = l := by
  unfold lastN
  rw [Nat.sub_eq_zero_of_le h, List.drop_zero]

theorem pushBuf_lastN (N : Nat) (acc : List AgentMessage) (m : AgentMessage) :
    MemoryStore.pushBuf N (lastN N acc) m = lastN N (acc ++ [m]) := by
  unfold MemoryStore.pushBuf lastN
  rcases Nat.lt_or_ge acc.length N with h | h
  · have h1 : acc.length - N = 0 := by omega
    have h2 : (acc ++ [m]).length - N = 0 := by
      simp only [List.length_append, List.length_cons, List.length_nil]
      omega
    have hc : ¬ N < (acc.drop (acc.length - N) ++ [m]).length := by
      rw [h1, List.drop_zero]
      simp only [List.length_append, List.length_cons, List.length_nil]
      omega
    rw [if_neg hc, h1, h2, List.drop_zero, List.drop_zero]
  · have hdl : (acc.drop (acc.length - N)).length = N := by
      simp only [List.length_drop]
      omega
    have hc : N < (acc.drop (acc.length - N) ++ [m]).length := by
      simp only [List.length_append, hdl, List.length_cons, List.length_nil]
      omega
    rw [if_pos hc]
    rcases Nat.eq_zero_or_pos N with hN | hN
    · subst hN
      simp only [Nat.sub_zero, List.drop_length, List.nil_append, List.tail_cons]
    · have hsplit : (acc ++ [m]).length - N = (acc.length - N) + 1 := by
        simp only [List.length_append, List.length_cons, List.length_nil]
        omega
      have hle : (acc.length - N) + 1 ≤ acc.length := by omega
      rw [hsplit, List.drop_append_of_le_length hle, ← List.drop_one,
        List.drop_append_of_le_length (by omega : 1 ≤ (acc.drop (acc.length - N)).length),
        List.drop_drop]

theorem foldl_pushBuf_lastN (N : Nat) :
    ∀ (msgs acc : List AgentMessage),
      msgs.foldl (MemoryStore.pushBuf N) (lastN N acc) = lastN N (acc ++ msgs) := by
  intro msgs
  induction msgs with
  | nil => intro acc; simp
  | cons m ms ih =>
      intro acc
      rw [List.foldl_cons, pushBuf_lastN, ih (acc ++ [m])]
      simp

theorem foldl_pushBuf_eq_lastN (N : Nat) (msgs : List AgentMessage) :
    msgs.foldl (MemoryStore.pushBuf N) [] = lastN N msgs := by
  have h := foldl_pushBuf_lastN N msgs []
  rw [lastN_nil] at h
  simpa using h

theorem pushBuf_getLast (N : Nat) (hN : 0 < N) (buf : List AgentMessage)
    (m : AgentMessage) :
    (MemoryStore.pushBuf N buf m).getLast? = some m := by
  unfold MemoryStore.pushBuf
  by_cases h : N < (buf ++ [m]).length
  · rw [if_pos h]
    cases buf with
    | nil => simp at h; omega
    | cons c cs =>
        rw [List.cons_append, List.tail_cons]
        exact List.getLast?_concat _
  · rw [if_neg h]
    exact List.getLast?_concat _

theorem MemoryStore.getAgent_pushMessage_self (s : MemoryStore)
    (teamId agentName : String) (msg : AgentMessage) (N : Nat) (a : AgentRecord)
    (h : s.getAgent teamId agentName = some a) :
    (s.pushMessage teamId agentName msg N).getAgent teamId agentName
      = some { a with messageBuffer := MemoryStore.pushBuf N a.messageBuffer msg } := by
  have h' : mapGet s.agents (teamId, agentName) = some a := h
  unfold MemoryStore.pushMessage
  rw [h']
  simp [MemoryStore.getAgent, mapGet_mapSet_self]

theorem MemoryStore.getAgent_pushMessage_ne (s : MemoryStore)
    (teamId agentName : String) (msg : AgentMessage) (N : Nat)
    (teamId' agentName' : String) (hne : (teamId, agentName) ≠ (teamId', agentName')) :
    (s.pushMessage teamId agentName msg N).getAgent teamId' agentName'
      = s.getAgent teamId' agentName' := by
  unfold MemoryStore.pushMessage
  cases h : mapGet s.agents (teamId, agentName) with
  | none => rfl
  | some a => simp [MemoryStore.getAgent, mapGet_mapSet_other _ _ _ _ hne]

theorem getAgent_foldPush (teamId agentName : String) (N : Nat)
    (msgs : List AgentMessage) :
    ∀ (s : MemoryStore) (a : AgentRecord), s.getAgent teamId agentName = some a →
      (msgs.foldl (fun st m => st.pushMessage teamId agentName m N) s).getAgent
          teamId agentName
        = some { a with
            messageBuffer := msgs.foldl (MemoryStore.pushBuf N) a.messageBuffer } := by
  induction msgs with
  | nil => intro s a h; simpa using h
  | cons m ms ih =>
      intro s a h
      rw [List.foldl_cons]
      exact ih _ _ (MemoryStore.getAgent_pushMessage_self s teamId agentName m N a h)

theorem getAgent_foldTargets_ne (teamId : String) (msg : AgentMessage) (N : Nat)
    (x : String) :
    ∀ (ts : List AgentRecord) (s : MemoryStore), (∀ b ∈ ts, b.name ≠ x) →
      (ts.foldl (fun st b => st.pushMessage teamId b.name msg N) s).getAgent teamId x
        = s.getAgent teamId x := by
  intro ts
  induction ts with
  | nil => intro s _; rfl
  | cons b rest ih =>
      intro s hne
      rw [List.foldl_cons, ih _ (fun q hq => hne q (List.mem_cons_of_mem _ hq))]
      refine MemoryStore.getAgent_pushMessage_ne s teamId b.name msg N teamId x ?_
      intro heq
      exact hne b (List.mem_cons_self _ _) (congrArg Prod.snd heq)

theorem foldTargets_delivers (teamId : String) (msg : AgentMessage) (N : Nat)
    (hN : 0 < N) :
    ∀ (ts : List AgentRecord) (s : MemoryStore),
      ((ts.map AgentRecord.name).Nodup) →
      (∀ b ∈ ts, s.getAgent teamId b.name = some b) →
      ∀ a ∈ ts, ∃ r,
        (ts.foldl (fun st b => st.pushMessage teamId b.name msg N) s).getAgent
            teamId a.name = some r
        ∧ r.messageBuffer.getLast? = some msg := by
  intro ts
  induction ts with
  | nil => intro s _ _ a ha; cases ha
  | cons b rest ih =>
      intro s hnd hex a ha
      simp only [List.map_cons, List.nodup_cons] at hnd
      have hb : s.getAgent teamId b.name = some b := hex b (List.mem_cons_self _ _)
      have hb1 : (s.pushMessage teamId b.name msg N).getAgent teamId b.name
          = some { b with messageBuffer := MemoryStore.pushBuf N b.messageBuffer msg } :=
        MemoryStore.getAgent_pushMessage_self s teamId b.name msg N b hb
      have hrest : ∀ q ∈ rest,
          (s.pushMessage teamId b.name msg N).getAgent teamId q.name = some q := by
        intro q hq
        rw [MemoryStore.getAgent_pushMessage_ne s teamId b.name msg N teamId q.name
          (by
            intro heq
            apply hnd.1
            rw [show b.name = q.name from congrArg Prod.snd heq]
            exact List.mem_map_of_mem _ hq)]
        exact hex q (List.mem_cons_of_mem _ hq)
      rcases List.mem_cons.mp ha with rfl | ha'
      · refine ⟨{ a with messageBuffer := MemoryStore.pushBuf N a.messageBuffer msg },
          ?_, pushBuf_getLast N hN a.messageBuffer msg⟩
        rw [List.foldl_cons,
          getAgent_foldTargets_ne teamId msg N a.name rest _
            (fun q hq hqe => hnd.1 (hqe ▸ List.mem_map_of_mem _ hq))]
        exact hb1
      · rw [List.foldl_cons]
        exact ih _ hnd.2 hrest a ha'

theorem vol_getAgent_pushMessage_update (st : FileState) (teamId agentName : String)
    (msg : AgentMessage) (N : Nat) (a : AgentRecord)
    (h : VolumeStore.getAgent st teamId agentName = some a) :
    VolumeStore.getAgent (VolumeStore.pushMessage st teamId agentName msg N)
        teamId agentName
      = some { a with messageBuffer := MemoryStore.pushBuf N a.messageBuffer msg } := by
  simp only [VolumeStore.getAgent, VolumeStore.pushMessage] at h ⊢
  cases hm : mapGet st.agents (VolumeStore.agentKey teamId agentName) with
  | none => rw [hm] at h; simp at h
  | some meta =>
      rw [hm] at h
      simp only [Option.some.injEq] at h
      subst h
      simp [hm, mapGet_mapSet_self, VolumeStore.recOf]

theorem vol_getAgent_foldPush (teamId agentName : String) (N : Nat)
    (msgs : List AgentMessage) :
    ∀ (st : FileState) (a : AgentRecord),
      VolumeStore.getAgent st teamId agentName = some a →
      VolumeStore.getAgent
          (msgs.foldl (fun s m => VolumeStore.pushMessage s teamId agentName m N) st)
          teamId agentName
        = some { a with
            messageBuffer := msgs.foldl (MemoryStore.pushBuf N) a.messageBuffer } := by
  induction msgs with
  | nil => intro st a h; simpa using h
  | cons m ms ih =>
      intro st a h
      rw [List.foldl_cons]
      exact ih _ _ (vol_getAgent_pushMessage_update st teamId agentName m N a h)

theorem getAgent_of_mem_listAgents {s : MemoryStore} {teamId : String}
    {a : AgentRecord} (hwf : s.WF) (ha : a ∈ s.listAgents teamId) :
    s.getAgent teamId a.name = some a := by
  have ha' := List.mem_filter.mp ha
  rcases List.mem_map.mp ha'.1 with ⟨p, hp, hpa⟩
  have hteam : a.teamId = teamId := by simpa using ha'.2
  have hkey : p.1 = (teamId, a.name) := by
    rw [hwf.2 p hp, hpa, hteam]
  have hget := mapGet_of_mem hwf.1 hp
  rw [hkey, hpa] at hget
  exact hget

theorem listAgents_names_nodup_aux (teamId : String) :
    ∀ (l : List ((String × String) × AgentRecord)),
      (l.map Prod.fst).Nodup → (∀ p ∈ l, p.1 = (p.2.teamId, p.2.name)) →
      (((l.map Prod.snd).filter (fun a => a.teamId = teamId)).map
        AgentRecord.name).Nodup := by
  intro l
  induction l with
  | nil => intro _ _; simp
  | cons p rest ih =>
      intro hnd hkeys
      simp only [List.map_cons, List.nodup_cons] at hnd
      rw [List.map_cons]
      by_cases hteam : p.2.teamId = teamId
      · rw [List.filter_cons_of_pos (by simp [hteam]), List.map_cons]
        refine List.nodup_cons.mpr
          ⟨?_, ih hnd.2 (fun q hq => hkeys q (List.mem_cons_of_mem _ hq))⟩
        intro hmem
        rcases List.mem_map.mp hmem with ⟨b, hb, hbname⟩
        have hb' := List.mem_filter.mp hb
        rcases List.mem_map.mp hb'.1 with ⟨q, hq, hqb⟩
        have hbteam : b.teamId = teamId := by simpa using hb'.2
        have : q.1 = p.1 := by
          rw [hkeys q (List.mem_cons_of_mem _ hq),
            hkeys p (List.mem_cons_self _ _), hqb, hbteam, hbname, hteam]
        exact hnd.1 (this ▸ List.mem_map_of_mem Prod.fst hq)
      · rw [List.filter_cons_of_neg (by simp [hteam])]
        exact ih hnd.2 (fun q hq => hkeys q (List.mem_cons_of_mem _ hq))

theorem listAgents_names_nodup {s : MemoryStore} (teamId : String) (hwf : s.WF) :
    ((s.listAgents teamId).map AgentRecord.name).Nodup :=
  listAgents_names_nodup_aux teamId s.agents hwf.1 hwf.2

theorem filter_ne_length (x : String) :
    ∀ (L : List AgentRecord), ((L.map AgentRecord.name).Nodup) →
      (∃ b ∈ L, b.name = x) →
      (L.filter (fun a => a.name ≠ x)).length = L.length - 1 := by
  intro L
  induction L with
  | nil => rintro _ ⟨b, hb, _⟩; cases hb
  | cons c L' ih =>
      intro hnd hex
      simp only [List.map_cons, List.nodup_cons] at hnd
      by_cases hc : c.name = x
      · rw [List.filter_cons_of_neg (by simp [hc])]
        rw [List.filter_eq_self.mpr (fun a ha => by
          simp only [decide_eq_true_eq]
          intro he
          apply hnd.1
          rw [hc, ← he]
          exact List.mem_map_of_mem AgentRecord.name ha)]
        simp
      · rw [List.filter_cons_of_pos (by simp [hc])]
        rcases hex with ⟨b, hb, hbx⟩
        rcases List.mem_cons.mp hb with rfl | hb'
        · exact absurd hbx hc
        · have hlen := ih hnd.2 ⟨b, hb', hbx⟩
          have hpos : 0 < L'.length := List.length_pos.mpr (List.ne_nil_of_mem hb')
          simp only [List.length_cons, hlen]
          omega

/-! ## Claims -/

/-- C1: for an agent present in the store with an empty buffer, after any
sequence of `pushMessage` calls with the same cap `N`, `getAgent` returns a
buffer equal to exactly the last `N` pushed messages in arrival order
(`lastN N msgs = msgs.drop (msgs.length - N)`, i.e. eviction is strictly FIFO
from the head), hence of length at most `N`, and equal to the whole sequence
when fewer than `N` were pushed — for both the in-memory and the
snapshot-file adapter. -/
theorem c1_pushMessage_cap_fifo :
    (∀ (s : MemoryStore) (teamId agentName : String) (N : Nat) (a : AgentRecord)
        (msgs : List AgentMessage),
        s.getAgent teamId agentName = some a → a.messageBuffer = [] →
        ∃ r, (msgs.foldl (fun st m => st.pushMessage teamId agentName m N) s).getAgent
              teamId agentName = some r
          ∧ r.messageBuffer = lastN N msgs
          ∧ r.messageBuffer.length ≤ N
          ∧ (msgs.length ≤ N → r.messageBuffer = msgs))
    ∧ (∀ (st : FileState) (teamId agentName : String) (N : Nat) (a : AgentRecord)
        (msgs : List AgentMessage),
        VolumeStore.getAgent st teamId agentName = some a → a.messageBuffer = [] →
        ∃ r, VolumeStore.getAgent
              (msgs.foldl (fun s m => VolumeStore.pushMessage s teamId agentName m N) st)
              teamId agentName = some r
          ∧ r.messageBuffer = lastN N msgs
          ∧ r.messageBuffer.length ≤ N
          ∧ (msgs.length ≤ N → r.messageBuffer = msgs)) := by
  constructor
  · intro s teamId agentName N a msgs hex hempty
    have hbuf : msgs.foldl (MemoryStore.pushBuf N) a.messageBuffer = lastN N msgs := by
      rw [hempty, foldl_pushBuf_eq_lastN]
    refine ⟨_, getAgent_foldPush teamId agentName N msgs s a hex, hbuf, ?_, ?_⟩
    · show (msgs.foldl (MemoryStore.pushBuf N) a.messageBuffer).length ≤ N
      rw [hbuf]
      exact length_lastN_le N msgs
    · intro hlen
      show msgs.foldl (MemoryStore.pushBuf N) a.messageBuffer = msgs
      rw [hbuf]
      exact lastN_of_length_le hlen
  · intro st teamId agentName N a msgs hex hempty
    have hbuf : msgs.foldl (MemoryStore.pushBuf N) a.messageBuffer = lastN N msgs := by
      rw [hempty, foldl_pushBuf_eq_lastN]
    refine ⟨_, vol_getAgent_foldPush teamId agentName N msgs st a hex, hbuf, ?_, ?_⟩
    · show (msgs.foldl (MemoryStore.pushBuf N) a.messageBuffer).length ≤ N
      rw [hbuf]
      exact length_lastN_le N msgs
    · intro hlen
      show msgs.foldl (MemoryStore.pushBuf N) a.messageBuffer = msgs
      rw [hbuf]
      exact lastN_of_length_le hlen

theorem c1_pushMessage_cap_fifo_witness :
    ∃ r, (sampleMsgs.foldl (fun st m => st.pushMessage "t1" "bob" m 2)
            sampleStore).getAgent "t1" "bob" = some r
      ∧ r.messageBuffer = lastN 2 sampleMsgs
      ∧ r.messageBuffer.length ≤ 2
      ∧ (sampleMsgs.length ≤ 2 → r.messageBuffer = sampleMsgs) :=
  c1_pushMessage_cap_fifo.1 sampleStore "t1" "bob" 2 ⟨"bob", "t1", "s2", 0, []⟩
    sampleMsgs (by decide) (by decide)

/-- C2: on a well-formed store whose team contains the authenticated sender, a
broadcast send reports `deliveredTo = k - 1` for a team of `k` agents, appends
the message to the buffer of every team agent other than the sender, and
leaves the sender's own record (buffer included) unchanged. -/
theorem c2_broadcast_delivery (s : MemoryStore) (teamId agentName : String)
    (msg : AgentMessage) (hwf : s.WF) (hto : msg.«to» = "broadcast")
    (hsender : ∃ b ∈ s.listAgents teamId, b.name = agentName) :
    (sendRoute s teamId agentName msg).2.deliveredTo
        = (s.listAgents teamId).length - 1
    ∧ (sendRoute s teamId agentName msg).2.ok = true
    ∧ (sendRoute s teamId agentName msg).1.getAgent teamId agentName
        = s.getAgent teamId agentName
    ∧ ∀ a ∈ s.listAgents teamId, a.name ≠ agentName →
        ∃ r, (sendRoute s teamId agentName msg).1.getAgent teamId a.name = some r
          ∧ r.messageBuffer.getLast? = some msg := by
  have htargets : sendTargets s teamId agentName msg.«to»
      = (s.listAgents teamId).filter (fun a => a.name ≠ agentName) := by
    rw [hto]
    simp [sendTargets]
  have hnames := listAgents_names_nodup teamId hwf
  have hfilter_names : (((s.listAgents teamId).filter
      (fun a => a.name ≠ agentName)).map AgentRecord.name).Nodup :=
    List.Nodup.sublist ((List.filter_sublist _).map AgentRecord.name) hnames
  have hmem_get : ∀ b ∈ (s.listAgents teamId).filter (fun a => a.name ≠ agentName),
      s.getAgent teamId b.name = some b := fun b hb =>
    getAgent_of_mem_listAgents hwf (List.mem_filter.mp hb).1
  have hne_targets : ∀ b ∈ (s.listAgents teamId).filter (fun a => a.name ≠ agentName),
      b.name ≠ agentName := by
    intro b hb
    simpa using (List.mem_filter.mp hb).2
  refine ⟨?_, rfl, ?_, ?_⟩
  · show (sendTargets s teamId agentName msg.«to»).length = _
    rw [htargets]
    exact filter_ne_length agentName _ hnames hsender
  · show ((sendTargets s teamId agentName msg.«to»).foldl
        (fun st t => st.pushMessage teamId t.name msg MAX_BUFFER) s).getAgent
          teamId agentName = s.getAgent teamId agentName
    rw [htargets]
    exact getAgent_foldTargets_ne teamId msg MAX_BUFFER agentName _ s hne_targets
  · intro a ha hane
    show ∃ r, ((sendTargets s teamId agentName msg.«to»).foldl
        (fun st t => st.pushMessage teamId t.name msg MAX_BUFFER) s).getAgent
          teamId a.name = some r ∧ r.messageBuffer.getLast? = some msg
    rw [htargets]
    exact foldTargets_delivers teamId msg MAX_BUFFER (by decide) _ s
      hfilter_names hmem_get a (List.mem_filter.mpr ⟨ha, by simpa using hane⟩)

theorem c2_broadcast_delivery_witness :
    (sendRoute sampleStore "t1" "alice" sampleBroadcast).2.deliveredTo
        = (sampleStore.listAgents "t1").length - 1
    ∧ (sendRoute sampleStore "t1" "alice" sampleBroadcast).2.ok = true
    ∧ (sendRoute sampleStore "t1" "alice" sampleBroadcast).1.getAgent "t1" "alice"
        = sampleStore.getAgent "t1" "alice"
    ∧ ∀ a ∈ sampleStore.listAgents "t1", a.name ≠ "alice" →
        ∃ r, (sendRoute sampleStore "t1" "alice" sampleBroadcast).1.getAgent
              "t1" a.name = some r
          ∧ r.messageBuffer.getLast? = some sampleBroadcast :=
  c2_broadcast_delivery sampleStore "t1" "alice" sampleBroadcast
    ⟨by decide, by decide⟩
    (by decide) ⟨⟨"alice", "t1", "s1", 0, []⟩, by decide, by decide⟩

/-- C4: `flushMessages` returns the full buffer in FIFO order and empties it,
for both the `MemoryStore` and the `VolumeStore`; a second `flushMessages`
with no intervening push returns `[]`, so no message is returned by both
calls. -/
theorem c4_flush_idempotent_drain :
    (∀ (s : MemoryStore) (teamId agentName : String),
        (s.flushMessages teamId agentName).1
            = ((s.getAgent teamId agentName).map AgentRecord.messageBuffer).getD []
          ∧ ((s.flushMessages teamId agentName).2.flushMessages teamId agentName).1 = [])
    ∧ (∀ (st : FileState) (teamId agentName : String),
        (VolumeStore.flushMessages st teamId agentName).1
            = (mapGet st.messages (VolumeStore.agentKey teamId agentName)).getD []
          ∧ (VolumeStore.flushMessages
              (VolumeStore.flushMessages st teamId agentName).2 teamId agentName).1 = []) := by
  constructor
  · intro s teamId agentName
    cases h : mapGet s.agents (teamId, agentName) with
    | none => simp [MemoryStore.flushMessages, MemoryStore.getAgent, h]
    | some a =>
        refine ⟨by simp [MemoryStore.flushMessages, MemoryStore.getAgent, h], ?_⟩
        simp [MemoryStore.flushMessages, h, mapGet_mapSet_self]
  · intro st teamId agentName
    refine ⟨rfl, ?_⟩
    by_cases h : 0 < ((mapGet st.messages (VolumeStore.agentKey teamId agentName)).getD []).length
    · simp [VolumeStore.flushMessages, h, mapGet_mapSet_self]
    · have hempty : (mapGet st.messages (VolumeStore.agentKey teamId agentName)).getD [] = [] := by
        cases hm : (mapGet st.messages (VolumeStore.agentKey teamId agentName)).getD [] with
        | nil => rfl
        | cons x xs => rw [hm] at h; simp at h
      simp [VolumeStore.flushMessages, hempty]

/-- C5: on the `VolumeStore`, `saveAgent` followed by `getAgent` for the same
`(teamId, name)` reproduces the saved record, message buffer included; in
particular saving an empty buffer replaces any previously stored buffer. -/
theorem c5_saveAgent_roundtrip :
    ∀ (st : FileState) (a : AgentRecord),
      VolumeStore.getAgent (VolumeStore.saveAgent st a) a.teamId a.name = some a := by
  intro st a
  obtain ⟨n, t, sid, c, buf⟩ := a
  simp [VolumeStore.getAgent, VolumeStore.saveAgent, VolumeStore.recOf, VolumeStore.metaOf,
    mapGet_mapSet_self]

/-- C7: the store registration performed when an agent opens the streaming
connection saves a record carrying the message buffer of the existing record,
so messages buffered while the agent was offline are preserved. -/
theorem c7_stream_preserves_buffer (s : MemoryStore)
    (teamId agentName sessionId : String) (now : Nat) (a : AgentRecord)
    (h : s.getAgent teamId agentName = some a) :
    (streamRegister s teamId agentName sessionId now).getAgent teamId agentName
      = some ⟨agentName, teamId, sessionId, now, a.messageBuffer⟩ := by
  unfold streamRegister
  rw [h]
  simpa using
    MemoryStore.getAgent_saveAgent_self s ⟨agentName, teamId, sessionId, now, a.messageBuffer⟩

/-- C8: an authenticated send to a recipient name that is not `broadcast` and
matches no agent in the team answers `{ ok: true, deliveredTo: 0 }` and leaves
the store — hence every buffer — unchanged. -/
theorem c8_send_unknown_agent (s : MemoryStore) (teamId agentName : String)
    (msg : AgentMessage) (hto : msg.«to» ≠ "broadcast")
    (habs : s.getAgent teamId msg.«to» = none) :
    sendRoute s teamId agentName msg
      = (s, { ok := true, messageId := msg.id, deliveredTo := 0 }) := by
  simp [sendRoute, sendTargets, hto, habs]

/-- C9: `listAgents teamId` returns only agents whose owning team identifier
equals `teamId`, for every state of the `MemoryStore` and of the
`VolumeStore` — in particular for every interleaving of creates. -/
theorem c9_listAgents_team_scoped :
    (∀ (s : MemoryStore) (teamId : String) (a : AgentRecord),
        a ∈ s.listAgents teamId → a.teamId = teamId)
    ∧ (∀ (st : FileState) (teamId : String) (a : AgentRecord),
        a ∈ VolumeStore.listAgents st teamId → a.teamId = teamId) := by
  constructor
  · intro s teamId a ha
    simpa using (List.mem_filter.mp ha).2
  · intro st teamId a ha
    rcases List.mem_map.mp ha with ⟨p, hp, rfl⟩
    simpa [VolumeStore.recOf] using (List.mem_filter.mp hp).2

/-- C10: a relay-transport `send` that publishes successfully reports
`{ ok: true, deliveredTo: 1 }` for every recipient argument — `broadcast` and
unknown names included; the count never reflects the actual recipients. -/
theorem c10_nostr_deliveredTo_one :
    ∀ (teamId agentName toName msgType content id pubkey sig : String)
      (created_at : Nat),
      (nostrSend teamId agentName toName msgType content id pubkey sig created_at).2
        = { ok := true, messageId := id, deliveredTo := 1 } := by
  intro teamId agentName toName msgType content id pubkey sig created_at
  rfl

/-- C3: an event whose `t` tags do not carry this client's team tag never
passes the subscription filter, so it never reaches `handleEvent` and the
local delivery state is unchanged; in particular a broadcast message event
published on a different team tag is never appended to the buffer. -/
theorem c3_team_isolation :
    (∀ (teamA : String) (since : Nat) (myName : String) (st : ClientState)
        (e : NostrEvent),
        e.tags.any (fun t => t.head? == some "t" && t.get? 1 == some teamA) = false →
        deliverEvent teamA since myName st e = st)
    ∧ (∀ (teamA teamB agentName msgType content id pubkey sig : String)
        (created_at : Nat) (since : Nat) (myName : String) (st : ClientState),
        teamB ≠ teamA →
        deliverEvent teamA since myName st
          (mkMessageEvent teamB agentName "broadcast" msgType content id pubkey sig
            created_at) = st) := by
  constructor
  · intro teamA since myName st e h
    have hf : filterMatches teamA since e = false := by
      unfold filterMatches
      rw [h]
      simp
    simp [deliverEvent, hf]
  · intro teamA teamB agentName msgType content id pubkey sig created_at since myName st hne
    have hany : ((mkMessageEvent teamB agentName "broadcast" msgType content id pubkey sig
          created_at).tags.any
            (fun t => t.head? == some "t" && t.get? 1 == some teamA)) = false := by
      simp [mkMessageEvent, hne]
    have hf : filterMatches teamA since
        (mkMessageEvent teamB agentName "broadcast" msgType content id pubkey sig
          created_at) = false := by
      unfold filterMatches
      rw [hany]
      simp
    simp [deliverEvent, hf]

/-- C6: an `OK` acknowledgement with `accepted = false` for a pending publish
rejects it with the relay's stated reason; `accepted = true` resolves it; the
5-second timeout resolves a still-unacknowledged publish — it is never
surfaced as an error. -/
theorem c6_publish_ack_semantics (pending : List String) (eventId reason : String)
    (h : eventId ∈ pending) :
    (handleOk pending eventId false reason).2
        = some (PublishOutcome.rejected ("Relay rejected event: " ++ reason))
    ∧ (handleOk pending eventId true reason).2 = some PublishOutcome.resolved
    ∧ (publishTimeout pending eventId).2 = some PublishOutcome.resolved := by
  simp [handleOk, publishTimeout, h]

/-! ## Witnesses -/

theorem c3_team_isolation_witness :
    ("teamB" ≠ "teamA")
    ∧ deliverEvent "teamA" 0 "bob" ⟨[], []⟩
        (mkMessageEvent "teamB" "alice" "broadcast" "decision" "x" "id1" "pk" "sig" 10)
      = ⟨[], []⟩ :=
  ⟨by decide,
    c3_team_isolation.2 "teamA" "teamB" "alice" "decision" "x" "id1" "pk" "sig" 10 0
      "bob" ⟨[], []⟩ (by decide)⟩

theorem c6_publish_ack_semantics_witness :
    ("e1" ∈ ["e1", "e2"])
    ∧ ((handleOk ["e1", "e2"] "e1" false "spam").2
          = some (PublishOutcome.rejected ("Relay rejected event: " ++ "spam"))
      ∧ (handleOk ["e1", "e2"] "e1" true "spam").2 = some PublishOutcome.resolved
      ∧ (publishTimeout ["e1", "e2"] "e1").2 = some PublishOutcome.resolved) :=
  ⟨by decide, c6_publish_ack_semantics ["e1", "e2"] "e1" "spam" (by decide)⟩

theorem c7_stream_preserves_buffer_witness :
    (streamRegister sampleStoreBuf "t1" "bob" "s9" 42).getAgent "t1" "bob"
      = some ⟨"bob", "t1", "s9", 42, sampleBufRec.messageBuffer⟩ :=
  c7_stream_preserves_buffer sampleStoreBuf "t1" "bob" "s9" 42 sampleBufRec (by decide)

theorem c8_send_unknown_agent_witness :
    sendRoute sampleStore "t1" "alice" sampleToGhost
      = (sampleStore,
          { ok := true, messageId := sampleToGhost.id, deliveredTo := 0 }) :=
  c8_send_unknown_agent sampleStore "t1" "alice" sampleToGhost (by decide) (by decide)

theorem c9_listAgents_team_scoped_witness :
    (⟨"alice", "t1", "s1", 0, []⟩ : AgentRecord).teamId = "t1"
    ∧ (VolumeStore.recOf ⟨"carol", "t2", "s3", 1⟩ []).teamId = "t2" :=
  ⟨c9_listAgents_team_scoped.1 sampleStore "t1" ⟨"alice", "t1", "s1", 0, []⟩ (by decide),
   c9_listAgents_team_scoped.2 sampleVolume "t2"
     (VolumeStore.recOf ⟨"carol", "t2", "s3", 1⟩ []) (by decide)⟩

end AgentHub
